import Mathlib

/-!
Verification development for the `errata_tool_cdn_repo` Ansible module
(`src/library/errata_tool_cdn_repo.py`).

The Python module reconciles a declared CDN-repository configuration against
the Errata Tool's remote state.  We embed it shallowly:

* Python dicts become association lists (`List (String × _)`) with
  insertion-order-preserving update (`dinsert`), mirroring Python dict
  semantics (updating an existing key keeps its position; a new key is
  appended).
* Python values that flow through the module's heterogeneous dicts become the
  inductive `Val` (`None`, strings, ints, bools, lists of strings).
* The remote service (an external collaborator, spec section 6) is modelled
  as an explicit state `ET` holding the repository records and the
  package-tag association records; every function that talks to the remote
  threads a state `St` that also logs each HTTP call issued, so that
  dry-run/no-mutation properties can be stated about the call log.
* Python exceptions become an explicit `Err` result
  (`ValueError`/`KeyError`/`StopIteration`/`TypeError`); a failing call
  returns `(.error e, st)` with the state as it was at the raise, matching
  the fact that a Python exception does not roll back already-issued calls.
* Python set iteration order is unspecified; the embedding fixes dict
  insertion order for the three per-package template sets.  Every claim
  settled below is either insensitive to that order or compares two runs
  that use the same order.
-/

set_option maxRecDepth 100000
set_option synthInstance.maxSize 2000

/-- Decidable equality of `Except` results, so that concrete runs of the
embedded functions can be evaluated inside proofs. -/
instance {e c : Type} [DecidableEq e] [DecidableEq c] : DecidableEq (Except e c) := fun x y =>
  match x, y with
  | .error u, .error v =>
    match decEq u v with
    | isTrue h => isTrue (h ▸ rfl)
    | isFalse h => isFalse (by intro hc; injection hc with h2; exact h h2)
  | .ok u, .ok v =>
    match decEq u v with
    | isTrue h => isTrue (h ▸ rfl)
    | isFalse h => isFalse (by intro hc; injection hc with h2; exact h h2)
  | .error _, .ok _ => isFalse (fun hc => Except.noConfusion hc)
  | .ok _, .error _ => isFalse (fun hc => Except.noConfusion hc)

namespace CdnRepo

/-- A Python value as it appears in the module's heterogeneous dicts:
`None`, a string, an int, a bool, or a list of strings. -/
inductive Val where
  | vnone
  | s (v : String)
  | n (v : Nat)
  | b (v : Bool)
  | list (v : List String)
deriving DecidableEq

/-- Python truthiness for the values above: `None`, `''`, `0`, `False` and
`[]` are falsy, everything else is truthy. -/
def pyTruthy : Val → Bool
  | .vnone => false
  | .s v => v ≠ ""
  | .n v => v ≠ 0
  | .b v => v
  | .list v => v ≠ []

/-- Python `str()` / `'%s' %` rendering of a value (`None` renders as
`"None"`, booleans capitalised). -/
def pyStr : Val → String
  | .vnone => "None"
  | .s v => v
  | .n v => toString v
  | .b true => "True"
  | .b false => "False"
  | .list v => "[" ++ String.intercalate ", " (v.map (fun x => "'" ++ x ++ "'")) ++ "]"

/-- A Python dict with `Val` values. -/
abbrev Dict := List (String × Val)

/-- Dict lookup: first entry with the given key (a Python dict has unique
keys, so this is the entry). -/
def dget {β : Type} (d : List (String × β)) (k : String) : Option β :=
  match d with
  | [] => none
  | (k', v) :: rest => if k' = k then some v else dget rest k

/-- Python `d[k] = v`: update the key in place if present (keeping its
position, as Python dicts do), otherwise append it. -/
def dinsert {β : Type} (k : String) (v : β) (d : List (String × β)) : List (String × β) :=
  match d with
  | [] => [(k, v)]
  | (k', v') :: rest => if k' = k then (k, v) :: rest else (k', v') :: dinsert k v rest

/-- Python `del d[k]` / `d.pop(k)` effect on the mapping: drop the first
entry with the given key. -/
def dremove {β : Type} (k : String) (d : List (String × β)) : List (String × β) :=
  match d with
  | [] => []
  | (k', v') :: rest => if k' = k then rest else (k', v') :: dremove k rest

/-- Update the value stored at a key (used for `packages[name][tag] = v`
after the outer key was ensured present). -/
def dmodify {β : Type} (d : List (String × β)) (k : String) (f : β → β) : List (String × β) :=
  match d with
  | [] => []
  | (k', v) :: rest => if k' = k then (k', f v) :: rest else (k', v) :: dmodify rest k f

/-- Python `d.get(k)` (default `None`). -/
def pyGetNone (d : Dict) (k : String) : Val :=
  (dget d k).getD Val.vnone

/-- A Python exception raised by the module. -/
inductive Err where
  | valueError (msg : String)
  | keyError (key : String)
  | stopIteration
  | typeError
deriving DecidableEq

/-- Python `d[k]`: the value, or a `KeyError`. -/
def dgetE {β : Type} (d : List (String × β)) (k : String) : Except Err β :=
  match dget d k with
  | some v => .ok v
  | none => .error (.keyError k)

/-- The keys of a dict in iteration order.  The embedding also applies this
to arbitrary association lists, dropping later duplicates (a Python dict
cannot hold a duplicate key in the first place). -/
def dkeys {β : Type} : List (String × β) → List String
  | [] => []
  | (k, _) :: rest => k :: (dkeys rest).filter (fun k' => decide (k' ≠ k))

/-- `set(a) - set(b)`, iterated in `a`-order (Python set order is
unspecified; the embedding fixes dict insertion order). -/
def setDiff (a b : List String) : List String :=
  a.filter (fun k => !(b.contains k))

/-- `set(a) & set(b)`, iterated in `a`-order. -/
def setInter (a b : List String) : List String :=
  a.filter (fun k => b.contains k)

/-- `PAGE_SIZE` (API pagination, source line 151). -/
def PAGE_SIZE : Nat := 100

/-- One tag declaration from the Ansible task's `packages` parameter: a bare
string, a mapping from tag template to a restriction dict, or any other
Python value (carried with its type name for the `ValueError` message). -/
inductive Tag where
  | str (v : String)
  | dict (d : List (String × Dict))
  | other (typeName : String)
deriving DecidableEq

/-- The normalized per-package tag map: tag template to restriction dict. -/
abbrev TagDict := List (String × Dict)

/-- `package_name -> (tag_template -> settings)`: the shape shared by the
normalized declaration and the remote reassembly. -/
abbrev PacMap := List (String × TagDict)

/-- The inner loop of `normalize_packages` (source lines 178-188) over one
package's tag list, accumulating the normalized tag dict.  A bare string
gets an empty restriction dict; for a mapping, `next(iter(tag))` takes the
first key (on an empty mapping Python raises `StopIteration`) and
`tag[tag_string]` is that first key's value; any other value raises
`ValueError`. -/
def normalize_tags (tags : List Tag) (acc : TagDict) : Except Err TagDict :=
  match tags with
  | [] => .ok acc
  | tag :: rest =>
    match tag with
    | .str s => normalize_tags rest (dinsert s [] acc)
    | .dict [] => .error .stopIteration
    | .dict ((tag_string, variant_restriction) :: _) =>
      normalize_tags rest (dinsert tag_string variant_restriction acc)
    | .other typeName => .error (.valueError ("unexpected " ++ typeName))

/-- `normalize_packages` (source lines 154-189). -/
def normalize_packages (packages : List (String × List Tag)) :
    Except Err PacMap :=
  match packages with
  | [] => .ok []
  | (package_name, tags) :: rest =>
    match normalize_tags tags [] with
    | .error e => .error e
    | .ok td =>
      match normalize_packages rest with
      | .error e => .error e
      | .ok nrest => .ok ((package_name, td) :: nrest)

/-- One `cdn_repo_package_tags` record held by the remote service. -/
structure Assoc where
  id : Nat
  repo : String
  package_name : String
  tag_template : String
  variant : Option String
deriving DecidableEq

/-- One element of a `cdn_repo_package_tags` listing response:
`id`, `relationships.package.name`, `attributes.tag_template`, and the
optional `relationships.variant.name`. -/
structure Element where
  id : Nat
  package_name : String
  tag_template : String
  variant : Option String
deriving DecidableEq

/-- One CDN repository record held by the remote service: flattened
attributes (release type, content type, scheduling flag, ...) plus the
relationship fields the read API reports separately. -/
structure RepoRec where
  id : Nat
  name : String
  attrs : Dict
  arch : String
  variants : List String
  packages : List String
deriving DecidableEq

/-- The remote Errata Tool state (external collaborator, spec section 6):
the repository records and the package-tag association records, plus the id
counters the service uses when creating records. -/
structure ET where
  repos : List RepoRec
  assocs : List Assoc
  nextRepoId : Nat
  nextAssocId : Nat
deriving DecidableEq

/-- One HTTP call issued by the module, as logged by the embedding. -/
inductive CallRec where
  | getRepos (name : String)
  | getTagsPage (name : String) (page_number : Nat)
  | postRepo (data : Dict)
  | putRepo (id : Nat) (data : Dict)
  | postTag (body : Dict)
  | putTag (id : Nat) (settings : Dict)
  | deleteTag (id : Nat)
deriving DecidableEq

/-- Whether a call is mutating (POST/PUT/DELETE) rather than a read. -/
def isMutating : CallRec → Bool
  | .getRepos _ => false
  | .getTagsPage _ _ => false
  | _ => true

/-- The module's execution state: the remote service plus the log of every
HTTP call issued so far. -/
structure St where
  et : ET
  calls : List CallRec
deriving DecidableEq

/-- Append a call to the log. -/
def logCall (c : CallRec) (st : St) : St :=
  { st with calls := st.calls ++ [c] }

/-- Render an association record as a listing element. -/
def assocElement (a : Assoc) : Element :=
  { id := a.id, package_name := a.package_name, tag_template := a.tag_template,
    variant := a.variant }

/-- `get_package_tags_page` (source lines 192-205): GET one page of the
`cdn_repo_package_tags` listing filtered by repository name, fixed page size
`PAGE_SIZE`, pages numbered from 1.  The modelled server pages the filtered
association list in order and always answers with status 200. -/
def get_package_tags_page (name : String) (page_number : Nat) (st : St) :
    List Element × St :=
  let filtered := st.et.assocs.filter (fun a => a.repo == name)
  let data := ((filtered.drop ((page_number - 1) * PAGE_SIZE)).take PAGE_SIZE).map assocElement
  (data, logCall (.getTagsPage name page_number) st)

/-- Source line 230 writes `found == PAGE_SIZE` where `found` is the list of
elements of the freshly fetched page and `PAGE_SIZE` is the integer 100.  In
Python a list never compares equal to an integer, so this expression is
always `False`; the embedding keeps the comparison as its own function to
make that explicit. -/
def pyListEqNat (_found : List Element) (_n : Nat) : Bool := false

/-- The `while (page_number == 0 or found == PAGE_SIZE)` loop of
`get_package_tags` (source lines 227-233), fuelled for termination (the
fuel passed by `get_package_tags` exceeds the number of pages the remote
could ever serve, so it is never the reason the loop stops). -/
def get_package_tags_loop (name : String) (fuel page_number : Nat)
    (elements found : List Element) (st : St) : List Element × St :=
  match fuel with
  | 0 => (elements, st)
  | fuel' + 1 =>
    if page_number == 0 || pyListEqNat found PAGE_SIZE then
      let (found', st') := get_package_tags_page name (page_number + 1) st
      get_package_tags_loop name fuel' (page_number + 1) (elements ++ found') found' st'
    else (elements, st)

/-- The reassembly step of `get_package_tags` (source lines 234-246): ensure
the package key exists, then store `{'variant': ..., 'id': ...}` (or just
`{'id': ...}`) under the tag template. -/
def addElement (packages : PacMap) (element : Element) : PacMap :=
  let packages :=
    if (dget packages element.package_name).isSome then packages
    else packages ++ [(element.package_name, [])]
  let value : Dict :=
    match element.variant with
    | some variant_name => [("variant", .s variant_name), ("id", .n element.id)]
    | none => [("id", .n element.id)]
  dmodify packages element.package_name (fun td => dinsert element.tag_template value td)

/-- `get_package_tags` (source lines 208-247). -/
def get_package_tags (name : String) (st : St) : PacMap × St :=
  let (elements, st') :=
    get_package_tags_loop name (st.et.assocs.length / PAGE_SIZE + 2) 0 [] [] st
  (elements.foldl addElement [], st')

/-- A `cdn_repos` API record as the module reads it: `id`, the flattened
`attributes` dict, and the `arch`/`variants`/`packages` relationships
(`packages` may be absent). -/
structure CdnRepoData where
  id : Nat
  attributes : Dict
  arch : String
  variants : List String
  packages : Option (List String)
deriving DecidableEq

/-- How the modelled server renders a repository record in an API response. -/
def renderRepo (r : RepoRec) : CdnRepoData :=
  { id := r.id, attributes := ("name", .s r.name) :: r.attrs, arch := r.arch,
    variants := r.variants, packages := some r.packages }

/-- The assembly half of `get_cdn_repo` (source lines 273-287): build the
flat dict `{'id': ...}`, merge in the attributes, then `arch`, `variants`
and the `package_names` derived from the packages relationship
(`relationships.get('packages', [])`). -/
def assemble_cdn_repo (d : CdnRepoData) : Dict :=
  let c : Dict := [("id", Val.n d.id)]
  let c := d.attributes.foldl (fun acc kv => dinsert kv.1 kv.2 acc) c
  let c := dinsert "arch" (.s d.arch) c
  let c := dinsert "variants" (.list d.variants) c
  dinsert "package_names" (.list (d.packages.getD [])) c

/-- `get_cdn_repo` (source lines 250-287): with no prefetched data, GET
`cdn_repos` filtered by name; no match means the repo does not exist
(`None`), more than one raises `ValueError('multiple ... cdn_repos
found')`, exactly one is assembled. -/
def get_cdn_repo (name : Val) (cdn_repo_data : Option CdnRepoData) (st : St) :
    Except Err (Option Dict) × St :=
  match cdn_repo_data with
  | some d => (.ok (some (assemble_cdn_repo d)), st)
  | none =>
    let results := (st.et.repos.filter (fun r => r.name == pyStr name)).map renderRepo
    let st := logCall (.getRepos (pyStr name)) st
    match results with
    | [] => (.ok none, st)
    | [d] => (.ok (some (assemble_cdn_repo d)), st)
    | _ => (.error (.valueError ("multiple " ++ pyStr name ++ " cdn_repos found")), st)

/-- `cdn_repo_api_data` (source lines 290-302): rename `arch` to
`arch_name` and `variants` to `variant_names` (Python's `pop` plus key
assignment moves the renamed key to the end of the dict). -/
def cdn_repo_api_data (params : Dict) : Dict :=
  let cdn_repo := params
  let cdn_repo :=
    match dget cdn_repo "arch" with
    | some v => dinsert "arch_name" v (dremove "arch" cdn_repo)
    | none => cdn_repo
  match dget cdn_repo "variants" with
  | some v => dinsert "variant_names" v (dremove "variants" cdn_repo)
  | none => cdn_repo

/-- Coerce a posted value to a list of strings (server side). -/
def asStringList : Option Val → List String
  | some (.list xs) => xs
  | _ => []

/-- Model of the remote service creating a CDN repository from a POSTed
`cdn_repo` payload: the wire fields `arch_name`/`variant_names`/
`package_names` become the relationships, everything else (minus `name`)
stays as flattened attributes, and a fresh id is assigned.  The modelled
server always accepts the creation (status 201). -/
def serverCreateRepo (data : Dict) (et : ET) : RepoRec × ET :=
  let r : RepoRec :=
    { id := et.nextRepoId
      name := pyStr (pyGetNone data "name")
      attrs := dremove "package_names" (dremove "variant_names"
                 (dremove "arch_name" (dremove "name" data)))
      arch := pyStr (pyGetNone data "arch_name")
      variants := asStringList (dget data "variant_names")
      packages := asStringList (dget data "package_names") }
  (r, { et with repos := et.repos ++ [r], nextRepoId := et.nextRepoId + 1 })

/-- Model of the remote service applying one field of a PUT `cdn_repo`
payload to a repository record. -/
def applyRepoField (r : RepoRec) (kv : String × Val) : RepoRec :=
  if kv.1 = "arch_name" then { r with arch := pyStr kv.2 }
  else if kv.1 = "variant_names" then { r with variants := asStringList (some kv.2) }
  else if kv.1 = "package_names" then { r with packages := asStringList (some kv.2) }
  else if kv.1 = "name" then { r with name := pyStr kv.2 }
  else { r with attrs := dinsert kv.1 kv.2 r.attrs }

/-- Model of the remote service editing a repository (always status 200). -/
def serverEditRepo (i : Nat) (data : Dict) (et : ET) : ET :=
  { et with repos := et.repos.map (fun r => if r.id == i then data.foldl applyRepoField r else r) }

/-- `create_cdn_repo` (source lines 305-313): POST the repo, then reuse
`get_cdn_repo` with the response data (so no second GET is issued). -/
def create_cdn_repo (params : Dict) (st : St) : Except Err (Option Dict) × St :=
  let data := cdn_repo_api_data params
  let st := logCall (.postRepo data) st
  let (r, et') := serverCreateRepo data st.et
  let st := { st with et := et' }
  match dgetE params "name" with
  | .error e => (.error e, st)
  | .ok name => get_cdn_repo name (some (renderRepo r)) st

/-- `edit_cdn_repo` (source lines 316-326): rebuild a params dict from the
difference triples, translate it with `cdn_repo_api_data`, and PUT it.  The
URL is built with `'%d' % cdn_repo_id`, so a non-integer id is a Python
`TypeError`; the modelled server always answers 200. -/
def edit_cdn_repo (cdn_repo_id : Val) (differences : List (String × Val × Val))
    (st : St) : Except Err Unit × St :=
  let params : Dict := differences.foldl (fun acc d => dinsert d.1 d.2.2 acc) []
  let data := cdn_repo_api_data params
  match cdn_repo_id with
  | .n i =>
    let st := logCall (.putRepo i data) st
    (.ok (), { st with et := serverEditRepo i data st.et })
  | _ => (.error .typeError, st)

/-- `add_package_tag` (source lines 329-351): POST the new tag, including
`variant_name` only when the variant argument is truthy.  The modelled
server appends the association with a fresh id and answers 201. -/
def add_package_tag (repo_name package_name tag_template : String) (variant : Val)
    (st : St) : Except Err Unit × St :=
  let json_settings : Dict :=
    [("cdn_repo_name", .s repo_name), ("package_name", .s package_name),
     ("tag_template", .s tag_template)]
  let json_settings :=
    if pyTruthy variant then dinsert "variant_name" variant json_settings
    else json_settings
  let st := logCall (.postTag json_settings) st
  let a : Assoc :=
    { id := st.et.nextAssocId, repo := repo_name, package_name := package_name,
      tag_template := tag_template,
      variant := if pyTruthy variant then some (pyStr variant) else none }
  (.ok (), { st with et := { st.et with
                             assocs := st.et.assocs ++ [a],
                             nextAssocId := st.et.nextAssocId + 1 } })

/-- `edit_package_tag` (source lines 354-376): a truthy desired variant PUTs
`variant_name`, otherwise `variant_id: None` clears the restriction.  The
URL uses `'%d' % tag_id` (`TypeError` on a non-integer id); the modelled
server updates the association and answers 200. -/
def edit_package_tag (tag_id : Val) (desired_tag : Dict) (st : St) :
    Except Err Unit × St :=
  let variant := pyGetNone desired_tag "variant"
  let settings : Dict :=
    if pyTruthy variant then [("variant_name", variant)] else [("variant_id", Val.vnone)]
  match tag_id with
  | .n i =>
    let st := logCall (.putTag i settings) st
    let upd := fun (a : Assoc) =>
      if a.id == i then
        { a with variant := if pyTruthy variant then some (pyStr variant) else none }
      else a
    (.ok (), { st with et := { st.et with assocs := st.et.assocs.map upd } })
  | _ => (.error .typeError, st)

/-- `delete_package_tag` (source lines 379-389): DELETE by id (`'%d' %
tag_id`, so `TypeError` on a non-integer); the modelled server removes the
association and answers 204. -/
def delete_package_tag (tag_id : Val) (st : St) : Except Err Unit × St :=
  match tag_id with
  | .n i =>
    let st := logCall (.deleteTag i) st
    (.ok (), { st with et := { st.et with assocs := st.et.assocs.filter (fun a => a.id ≠ i) } })
  | _ => (.error .typeError, st)

/-- `compare_package_tags` (source lines 392-420): compare only the
`variant` values (`dict.get`, default `None`).  The final `else []` stands
for Python falling off the function (implicit `None`); it is unreachable
because the first branch already handled equality. -/
def compare_package_tags (package_name tag_template : String)
    (current desired : Dict) : List String :=
  let current_variant := pyGetNone current "variant"
  let desired_variant := pyGetNone desired "variant"
  if current_variant = desired_variant then []
  else if pyTruthy current_variant && !pyTruthy desired_variant then
    ["removing \"" ++ pyStr current_variant ++ "\" variant from " ++ package_name ++
     " \"" ++ tag_template ++ "\" tag template"]
  else if !pyTruthy current_variant && pyTruthy desired_variant then
    ["adding \"" ++ pyStr desired_variant ++ "\" variant to " ++ package_name ++
     " \"" ++ tag_template ++ "\" tag template"]
  else if current_variant ≠ desired_variant then
    ["changing " ++ package_name ++ " \"" ++ tag_template ++ "\" variant from \"" ++
     pyStr current_variant ++ "\" to \"" ++ pyStr desired_variant ++ "\""]
  else []

/-- The "tags to remove" loop of `ensure_package_tags` (source lines
449-458). -/
def delete_tags_loop (package_name : String) (check_mode : Bool)
    (current_tags : TagDict) (tts : List String) (changes : List String)
    (st : St) : Except Err (List String) × St :=
  match tts with
  | [] => (.ok changes, st)
  | tag_template :: rest =>
    let changes := changes ++
      ["removing \"" ++ tag_template ++ "\" tag template from \"" ++ package_name ++ "\""]
    if check_mode then delete_tags_loop package_name check_mode current_tags rest changes st
    else
      match dgetE current_tags tag_template with
      | .error e => (.error e, st)
      | .ok settings =>
        match dgetE settings "id" with
        | .error e => (.error e, st)
        | .ok id_to_delete =>
          match delete_package_tag id_to_delete st with
          | (.error e, st') => (.error e, st')
          | (.ok _, st') =>
            delete_tags_loop package_name check_mode current_tags rest changes st'

/-- The "tags to modify" loop of `ensure_package_tags` (source lines
460-474): copy the current settings, pop `id`, compare, and (outside
check mode) edit when there are differences. -/
def modify_tags_loop (package_name : String) (check_mode : Bool)
    (current_tags desired_tags : TagDict) (tts : List String)
    (changes : List String) (st : St) : Except Err (List String) × St :=
  match tts with
  | [] => (.ok changes, st)
  | tag_template :: rest =>
    match dgetE current_tags tag_template with
    | .error e => (.error e, st)
    | .ok current_tag0 =>
      match dgetE desired_tags tag_template with
      | .error e => (.error e, st)
      | .ok desired_tag =>
        match dgetE current_tag0 "id" with
        | .error e => (.error e, st)
        | .ok tag_template_id =>
          let current_tag := dremove "id" current_tag0
          let differences :=
            compare_package_tags package_name tag_template current_tag desired_tag
          if differences = [] then
            modify_tags_loop package_name check_mode current_tags desired_tags rest changes st
          else
            let changes := changes ++ differences
            if check_mode then
              modify_tags_loop package_name check_mode current_tags desired_tags rest changes st
            else
              match edit_package_tag tag_template_id desired_tag st with
              | (.error e, st') => (.error e, st')
              | (.ok _, st') =>
                modify_tags_loop package_name check_mode current_tags desired_tags rest changes st'

/-- The "tags to add" loop of `ensure_package_tags` (source lines 476-485). -/
def add_tags_loop (repo_name package_name : String) (check_mode : Bool)
    (desired_tags : TagDict) (tts : List String) (changes : List String)
    (st : St) : Except Err (List String) × St :=
  match tts with
  | [] => (.ok changes, st)
  | tag_template :: rest =>
    let changes := changes ++
      ["adding \"" ++ tag_template ++ "\" tag template to \"" ++ package_name ++ "\""]
    if check_mode then
      add_tags_loop repo_name package_name check_mode desired_tags rest changes st
    else
      match dgetE desired_tags tag_template with
      | .error e => (.error e, st)
      | .ok tag =>
        let variant := pyGetNone tag "variant"
        match add_package_tag repo_name package_name tag_template variant st with
        | (.error e, st') => (.error e, st')
        | (.ok _, st') =>
          add_tags_loop repo_name package_name check_mode desired_tags rest changes st'

/-- `ensure_package_tags` (source lines 423-486): delete, then modify, then
add, accumulating the human-readable change list. -/
def ensure_package_tags (repo_name package_name : String) (check_mode : Bool)
    (current_tags desired_tags : TagDict) (st : St) :
    Except Err (List String) × St :=
  let tag_templates_to_delete := setDiff (dkeys current_tags) (dkeys desired_tags)
  match delete_tags_loop package_name check_mode current_tags tag_templates_to_delete [] st with
  | (.error e, st') => (.error e, st')
  | (.ok changes, st') =>
    let tag_templates_to_modify := setInter (dkeys current_tags) (dkeys desired_tags)
    match modify_tags_loop package_name check_mode current_tags desired_tags
        tag_templates_to_modify changes st' with
    | (.error e, st'') => (.error e, st'')
    | (.ok changes, st'') =>
      let tag_templates_to_add := setDiff (dkeys desired_tags) (dkeys current_tags)
      add_tags_loop repo_name package_name check_mode desired_tags
        tag_templates_to_add changes st''

/-- The per-package loop of `ensure_packages_tags` (source lines 507-518):
note it iterates the declared `packages` only, and that a package missing
from the remote map gets the Python default `[]` (an empty list where a
dict is expected; the embedding identifies both with the empty association
list, which is faithful because the only operations ever applied to it are
iteration, membership and subscription, on which the two agree). -/
def packages_tags_loop (name : String) (check_mode : Bool) (current : PacMap)
    (packages : PacMap) (changes : List String) (st : St) :
    Except Err (List String) × St :=
  match packages with
  | [] => (.ok changes, st)
  | (package_name, desired_tags) :: rest =>
    let current_tags := (dget current package_name).getD []
    match ensure_package_tags name package_name check_mode current_tags desired_tags st with
    | (.error e, st') => (.error e, st')
    | (.ok package_changes, st') =>
      packages_tags_loop name check_mode current rest (changes ++ package_changes) st'

/-- `ensure_packages_tags` (source lines 489-522). -/
def ensure_packages_tags (name : String) (check_mode : Bool) (packages : PacMap)
    (st : St) : Except Err (List String × PacMap) × St :=
  let (current, st) := get_package_tags name st
  match packages_tags_loop name check_mode current packages [] st with
  | (.error e, st') => (.error e, st')
  | (.ok changes, st') => (.ok (changes, current), st')

/-- A tag as rendered back into the declared style for the diff payload:
a bare string, or a single-key mapping carrying the variant. -/
inductive DiffTag where
  | bare (tag_name : String)
  | restricted (tag_name : String) (variant : Val)
deriving DecidableEq

/-- `tag_name_or_variant_dict` (source lines 530-538). -/
def tag_name_or_variant_dict (tag_name : String) (tag_info : Dict) : DiffTag :=
  if (dget tag_info "variant").isSome then .restricted tag_name (pyGetNone tag_info "variant")
  else .bare tag_name

/-- Insertion step for sorting a tag dict by tag name (Python
`sorted(items, key=lambda kv: kv[0])`). -/
def insertByKey (x : String × Dict) : List (String × Dict) → List (String × Dict)
  | [] => [x]
  | y :: rest => if x.1 < y.1 then x :: y :: rest else y :: insertByKey x rest

/-- Sort a tag dict's items by key. -/
def sortByKey (l : List (String × Dict)) : List (String × Dict) :=
  l.foldr insertByKey []

/-- `package_list_for_diff` (source lines 543-555). -/
def package_list_for_diff (all_packages : PacMap) : List (String × List DiffTag) :=
  all_packages.map (fun p =>
    (p.1, (sortByKey p.2).map (fun kv => tag_name_or_variant_dict kv.1 kv.2)))

/-- One side of the structured diff payload: the flat fields (with
`package_names` removed) plus the massaged packages listing. -/
structure DiffSide where
  fields : Dict
  packages : List (String × List DiffTag)
deriving DecidableEq

/-- Modelled from the spec: `common_errata_tool.task_diff_data` (module
utils, not under `src/`).  Spec section 6: given `before`, `after`, an item
name/type label and a list of read-only keys to carry through, return a
structured diff artifact; modelled as a record of its inputs. -/
structure DiffData where
  before : Option DiffSide
  after : DiffSide
  item_name : String
  item_type : String
  keys_to_copy : List String
deriving DecidableEq

/-- Modelled from the spec: `common_errata_tool.task_diff_data` constructor
(see `DiffData`). -/
def task_diff_data (before : Option DiffSide) (after : DiffSide)
    (item_name item_type : String) (keys_to_copy : List String) : DiffData :=
  { before := before, after := after, item_name := item_name,
    item_type := item_type, keys_to_copy := keys_to_copy }

/-- `prepare_diff_data` (source lines 559-588): deep-copy the dicts, attach
the massaged packages listing, drop the redundant `package_names`, and hand
everything to the diff payload builder. -/
def prepare_diff_data (before : Option Dict) (after : Dict)
    (before_packages after_packages : PacMap) : DiffData :=
  let after_side : DiffSide :=
    { fields := dremove "package_names" after,
      packages := package_list_for_diff after_packages }
  let before_side : Option DiffSide :=
    before.map (fun b =>
      { fields := dremove "package_names" b,
        packages := package_list_for_diff before_packages })
  task_diff_data before_side after_side (pyStr (pyGetNone after "name")) "cdn repo"
    ["quay_enabled", "external_name"]

/-- Modelled from the spec: `common_errata_tool.diff_settings` (module
utils, not under `src/`).  Spec sections 4.3 and 6: given the live settings
and the declared params, return the `(key, old, new)` triples for every key
present in both whose values differ. -/
def diff_settings (settings params : Dict) : List (String × Val × Val) :=
  params.filterMap (fun kv =>
    match dget settings kv.1 with
    | some old => if old = kv.2 then none else some (kv.1, old, kv.2)
    | none => none)

/-- Modelled from the spec: `common_errata_tool.describe_changes` (module
utils, not under `src/`).  Spec section 6: render each difference triple as
a human-readable string. -/
def describe_changes (differences : List (String × Val × Val)) : List String :=
  differences.map (fun d =>
    "changing " ++ d.1 ++ " from " ++ pyStr d.2.1 ++ " to " ++ pyStr d.2.2)

/-- The result dict built by `ensure_cdn_repo`. -/
structure Result where
  changed : Bool
  stdout_lines : List String
  diff : Option DiffData
deriving DecidableEq

/-- The tail of `ensure_cdn_repo` after the repository is known to exist
(source lines 620-642): attribute diff, optional edit, package tag
reconciliation, and the final diff payload. -/
def ensure_cdn_repo_rest (check_mode : Bool) (name : Val) (params : Dict)
    (packages : PacMap) (result : Result) (cdn_repo : Dict) (st : St) :
    Except Err Result × St :=
  let differences := diff_settings cdn_repo params
  let result :=
    if differences = [] then result
    else { result with
           changed := true,
           stdout_lines := result.stdout_lines ++ describe_changes differences }
  let step1 : Except Err Unit × St :=
    if differences = [] then (.ok (), st)
    else if check_mode then (.ok (), st)
    else
      match dgetE cdn_repo "id" with
      | .error e => (.error e, st)
      | .ok i => edit_cdn_repo i differences st
  match step1 with
  | (.error e, st) => (.error e, st)
  | (.ok _, st) =>
    match ensure_packages_tags (pyStr name) check_mode packages st with
    | (.error e, st) => (.error e, st)
    | (.ok (package_tag_changes, current_packages), st) =>
      let result :=
        if package_tag_changes = [] then result
        else { result with
               changed := true,
               stdout_lines := result.stdout_lines ++ package_tag_changes }
      let result :=
        if result.changed && result.diff.isNone then
          { result with
            diff := some (prepare_diff_data (some cdn_repo) params current_packages packages) }
        else result
      (.ok result, st)

/-- `ensure_cdn_repo` (source lines 591-642).  The `packages` parameter is
taken separately (the source pops it out of `params` first thing); the
`None`-valued-params filter is represented by key absence, since by this
point `run_module` has given every remaining parameter a value. -/
def ensure_cdn_repo (check_mode : Bool) (params : Dict)
    (packages_param : List (String × List Tag)) (st : St) :
    Except Err Result × St :=
  match dgetE params "name" with
  | .error e => (.error e, st)
  | .ok name =>
    let package_names := packages_param.map (fun p => p.1)
    let params := dinsert "package_names" (.list package_names) params
    match normalize_packages packages_param with
    | .error e => (.error e, st)
    | .ok packages =>
      match get_cdn_repo name none st with
      | (.error e, st) => (.error e, st)
      | (.ok repo0, st) =>
        match repo0 with
        | none =>
          let result : Result :=
            { changed := true, stdout_lines := ["created " ++ pyStr name],
              diff := some (prepare_diff_data none params [] packages) }
          if check_mode then (.ok result, st)
          else
            match create_cdn_repo params st with
            | (.error e, st) => (.error e, st)
            | (.ok none, st) => (.error .typeError, st)
            | (.ok (some cdn_repo), st) =>
              ensure_cdn_repo_rest check_mode name params packages result cdn_repo st
        | some cdn_repo =>
          ensure_cdn_repo_rest check_mode name params packages
            { changed := false, stdout_lines := [], diff := none } cdn_repo st

/-- Projection: the `changed` flag of a run, when it completed. -/
def resultChanged (x : Except Err Result × St) : Option Bool :=
  match x.1 with
  | .ok r => some r.changed
  | .error _ => none

/-- Projection: the `stdout_lines` change list of a run, when it completed. -/
def resultStdout (x : Except Err Result × St) : Option (List String) :=
  match x.1 with
  | .ok r => some r.stdout_lines
  | .error _ => none

/-- `st'` extends `st` by read calls only: the remote state is untouched and
every call appended to the log is a GET. -/
def readOnlyExt (st st' : St) : Prop :=
  st'.et = st.et ∧ ∃ tail, st'.calls = st.calls ++ tail ∧ tail.filter isMutating = []

/-- The tag template a declaration names: the string itself, or the first
key of a (nonempty) mapping. -/
def tagTemplateOf : Tag → Option String
  | .str s => some s
  | .dict ((k, _) :: _) => some k
  | _ => none

/-- The canonical restriction value a declaration normalizes to: the empty
dict for a bare string, the first value of a (nonempty) mapping. -/
def tagCanon : Tag → Dict
  | .dict ((_, r) :: _) => r
  | _ => []

/-- No tag declaration in the list is an empty mapping (an empty mapping
makes Python's `next(iter(tag))` raise `StopIteration`). -/
def noEmptyDict : List Tag → Bool
  | [] => true
  | .dict [] :: _ => false
  | _ :: rest => noEmptyDict rest

/-- Some tag declaration in the list is neither a string nor a mapping. -/
def hasOther : List Tag → Bool
  | [] => false
  | .other _ :: _ => true
  | _ :: rest => hasOther rest

end CdnRepo

namespace CdnRepo

/-! ### Dictionary lemmas -/

theorem dget_dinsert_self {β : Type} (k : String) (v : β) (d : List (String × β)) :
    dget (dinsert k v d) k = some v := by
  induction d with
  | nil => simp [dinsert, dget]
  | cons hd tl ih =>
    obtain ⟨k0, v0⟩ := hd
    by_cases h0 : k0 = k
    · simp [dinsert, dget, h0]
    · simp [dinsert, dget, h0, ih]

theorem dget_dinsert_ne {β : Type} (k k' : String) (v : β) (d : List (String × β))
    (h : k' ≠ k) : dget (dinsert k v d) k' = dget d k' := by
  induction d with
  | nil =>
    simp only [dinsert, dget]
    rw [if_neg (fun hh => h hh.symm)]
  | cons hd tl ih =>
    obtain ⟨k0, v0⟩ := hd
    by_cases h0 : k0 = k
    · subst h0
      simp only [dinsert, if_pos rfl, dget]
      rw [if_neg (fun hh => h hh.symm), if_neg (fun hh => h hh.symm)]
    · simp only [dinsert, if_neg h0, dget]
      by_cases h1 : k0 = k'
      · rw [if_pos h1, if_pos h1]
      · rw [if_neg h1, if_neg h1, ih]

theorem mem_map_fst_dinsert {β : Type} (x k : String) (v : β) (d : List (String × β)) :
    x ∈ (dinsert k v d).map Prod.fst ↔ x = k ∨ x ∈ d.map Prod.fst := by
  induction d with
  | nil => simp [dinsert]
  | cons hd tl ih =>
    obtain ⟨k0, v0⟩ := hd
    by_cases h0 : k0 = k
    · subst h0; simp [dinsert]
    · simp [dinsert, h0, ih]
      tauto

theorem nodup_map_fst_dinsert {β : Type} (k : String) (v : β) (d : List (String × β))
    (h : (d.map Prod.fst).Nodup) : ((dinsert k v d).map Prod.fst).Nodup := by
  induction d with
  | nil => simp [dinsert]
  | cons hd tl ih =>
    obtain ⟨k0, v0⟩ := hd
    simp only [List.map_cons, List.nodup_cons] at h
    by_cases h0 : k0 = k
    · subst h0
      simpa [dinsert] using h
    · simp only [dinsert, h0, if_false, List.map_cons, List.nodup_cons]
      refine ⟨?_, ih h.2⟩
      intro hmem
      rw [mem_map_fst_dinsert] at hmem
      rcases hmem with h1 | h1
      · exact h0 h1
      · exact h.1 h1

/-! ### Normalizer lemmas -/

theorem normalize_tags_append (xs ys : List Tag) (acc : TagDict) :
    normalize_tags (xs ++ ys) acc =
      match normalize_tags xs acc with
      | .ok a => normalize_tags ys a
      | .error e => .error e := by
  induction xs generalizing acc with
  | nil => simp [normalize_tags]
  | cons t rest ih =>
    cases t with
    | str s => simp [normalize_tags, ih]
    | dict d =>
      cases d with
      | nil => simp [normalize_tags]
      | cons p ptl =>
        obtain ⟨ts, vr⟩ := p
        simp [normalize_tags, ih]
    | other ty => simp [normalize_tags]

theorem normalize_tags_nodup (tags : List Tag) (acc td : TagDict)
    (hacc : (acc.map Prod.fst).Nodup)
    (h : normalize_tags tags acc = .ok td) : (td.map Prod.fst).Nodup := by
  induction tags generalizing acc with
  | nil =>
    simp only [normalize_tags] at h
    injection h with h
    exact h ▸ hacc
  | cons t rest ih =>
    cases t with
    | str s =>
      simp only [normalize_tags] at h
      exact ih _ (nodup_map_fst_dinsert _ _ _ hacc) h
    | dict d =>
      cases d with
      | nil => simp [normalize_tags] at h
      | cons p ptl =>
        obtain ⟨ts, vr⟩ := p
        simp only [normalize_tags] at h
        exact ih _ (nodup_map_fst_dinsert _ _ _ hacc) h
    | other ty => simp [normalize_tags] at h

theorem normalize_tags_skip (tags : List Tag) (acc td : TagDict) (t : String)
    (hno : ∀ u ∈ tags, tagTemplateOf u ≠ some t)
    (h : normalize_tags tags acc = .ok td) :
    dget td t = dget acc t := by
  induction tags generalizing acc with
  | nil =>
    simp only [normalize_tags] at h
    injection h with h
    exact h ▸ rfl
  | cons u rest ih =>
    cases u with
    | str s =>
      simp only [normalize_tags] at h
      have hs : s ≠ t := by
        intro hst
        exact hno (.str s) (by simp) (by simp [tagTemplateOf, hst])
      rw [ih _ (fun u hu => hno u (by simp [hu])) h]
      exact dget_dinsert_ne _ _ _ _ (fun hh => hs hh.symm)
    | dict d =>
      cases d with
      | nil => simp [normalize_tags] at h
      | cons p ptl =>
        obtain ⟨ts, vr⟩ := p
        simp only [normalize_tags] at h
        have hs : ts ≠ t := by
          intro hst
          exact hno (.dict ((ts, vr) :: ptl)) (by simp) (by simp [tagTemplateOf, hst])
        rw [ih _ (fun u hu => hno u (by simp [hu])) h]
        exact dget_dinsert_ne _ _ _ _ (fun hh => hs hh.symm)
    | other ty => simp [normalize_tags] at h

end CdnRepo

namespace CdnRepo

theorem normalize_tags_append_ok (xs ys : List Tag) (acc td : TagDict)
    (h : normalize_tags (xs ++ ys) acc = .ok td) :
    ∃ a, normalize_tags xs acc = .ok a ∧ normalize_tags ys a = .ok td := by
  induction xs generalizing acc with
  | nil => exact ⟨acc, rfl, h⟩
  | cons u rest ih =>
    cases u with
    | str s =>
      simp only [List.cons_append, normalize_tags] at h ⊢
      exact ih _ h
    | dict d =>
      cases d with
      | nil => simp [normalize_tags] at h
      | cons p ptl =>
        obtain ⟨ts, vr⟩ := p
        simp only [List.cons_append, normalize_tags] at h ⊢
        exact ih _ h
    | other ty => simp [normalize_tags] at h

theorem normalize_packages_mem_nodup (input : List (String × List Tag)) (out : PacMap)
    (p : String) (td : TagDict) (h : normalize_packages input = .ok out)
    (hmem : (p, td) ∈ out) : (td.map Prod.fst).Nodup := by
  induction input generalizing out with
  | nil =>
    simp only [normalize_packages] at h
    injection h with h
    subst h
    simp at hmem
  | cons hd rest ih =>
    obtain ⟨p0, tags0⟩ := hd
    simp only [normalize_packages] at h
    cases h0 : normalize_tags tags0 [] with
    | error e => rw [h0] at h; exact absurd h (by simp)
    | ok td0 =>
      rw [h0] at h
      cases h1 : normalize_packages rest with
      | error e => rw [h1] at h; exact absurd h (by simp)
      | ok nrest =>
        rw [h1] at h
        simp only at h
        injection h with h
        subst h
        rcases List.mem_cons.mp hmem with h2 | h2
        · have htd : td = td0 := congrArg Prod.snd h2
          subst htd
          exact normalize_tags_nodup tags0 [] td (by simp) h0
        · exact ih nrest h1 h2

theorem normalize_tags_error_shape (tags : List Tag) (acc : TagDict) (e : Err)
    (hne : noEmptyDict tags = true)
    (h : normalize_tags tags acc = .error e) : ∃ m, e = .valueError m := by
  induction tags generalizing acc with
  | nil => simp [normalize_tags] at h
  | cons t rest ih =>
    cases t with
    | str s => exact ih _ hne h
    | dict d =>
      cases d with
      | nil => simp [noEmptyDict] at hne
      | cons p ptl =>
        obtain ⟨ts, vr⟩ := p
        exact ih _ hne h
    | other ty =>
      simp only [normalize_tags] at h
      injection h with h
      exact ⟨"unexpected " ++ ty, h.symm⟩

theorem normalize_tags_valueError_iff (tags : List Tag) (acc : TagDict)
    (hne : noEmptyDict tags = true) :
    (∃ m, normalize_tags tags acc = .error (.valueError m)) ↔ hasOther tags = true := by
  induction tags generalizing acc with
  | nil => simp [normalize_tags, hasOther]
  | cons t rest ih =>
    cases t with
    | str s =>
      simp only [normalize_tags, hasOther]
      exact ih _ hne
    | dict d =>
      cases d with
      | nil => simp [noEmptyDict] at hne
      | cons p ptl =>
        obtain ⟨ts, vr⟩ := p
        simp only [normalize_tags, hasOther]
        exact ih _ hne
    | other ty =>
      simp only [normalize_tags, hasOther]
      constructor
      · intro _; trivial
      · intro _; exact ⟨"unexpected " ++ ty, rfl⟩

theorem normalize_packages_valueError_iff (input : List (String × List Tag))
    (hne : ∀ p ∈ input, noEmptyDict p.2 = true) :
    (∃ m, normalize_packages input = .error (.valueError m)) ↔
      (∃ p ∈ input, hasOther p.2 = true) := by
  induction input with
  | nil => simp [normalize_packages]
  | cons hd rest ih =>
    obtain ⟨p0, tags0⟩ := hd
    have hne0 : noEmptyDict tags0 = true := hne (p0, tags0) (by simp)
    have hner : ∀ p ∈ rest, noEmptyDict p.2 = true := fun p hp => hne p (by simp [hp])
    simp only [normalize_packages]
    cases h0 : normalize_tags tags0 [] with
    | error e =>
      obtain ⟨m, hm⟩ := normalize_tags_error_shape tags0 [] e hne0 h0
      subst hm
      constructor
      · intro _
        exact ⟨(p0, tags0), by simp,
          (normalize_tags_valueError_iff tags0 [] hne0).mp ⟨m, h0⟩⟩
      · intro _
        exact ⟨m, rfl⟩
    | ok td =>
      dsimp only
      have hno : hasOther tags0 = false := by
        by_contra hx
        rw [Bool.not_eq_false] at hx
        obtain ⟨m, hm⟩ := (normalize_tags_valueError_iff tags0 [] hne0).mpr hx
        rw [h0] at hm
        exact Except.noConfusion hm
      cases h1 : normalize_packages rest with
      | error e =>
        dsimp only
        constructor
        · intro hl
          rcases (ih hner).mp (h1 ▸ hl) with ⟨p, hp, hpo⟩
          exact ⟨p, by simp [hp], hpo⟩
        · rintro ⟨p, hp, hpo⟩
          rcases List.mem_cons.mp hp with hp0 | hp0
          · rw [hp0] at hpo
            simp only at hpo
            rw [hno] at hpo
            exact absurd hpo (by simp)
          · exact h1 ▸ (ih hner).mpr ⟨p, hp0, hpo⟩
      | ok nrest =>
        dsimp only
        constructor
        · rintro ⟨m, hm⟩
          exact absurd hm (by simp)
        · rintro ⟨p, hp, hpo⟩
          rcases List.mem_cons.mp hp with hp0 | hp0
          · rw [hp0] at hpo
            simp only at hpo
            rw [hno] at hpo
            exact absurd hpo (by simp)
          · obtain ⟨m, hm⟩ := (ih hner).mpr ⟨p, hp0, hpo⟩
            rw [h1] at hm
            exact Except.noConfusion hm

end CdnRepo

namespace CdnRepo

/-- C5: for every `packages` input, the Normalizer produces inner maps keyed
by tag template with no duplicate keys; a bare string declaration and a
mapping declaration with an empty restriction normalize identically (to the
empty dict); and when the same template is declared more than once within a
package, the last occurrence in iteration order provides the surviving
canonical value. -/
theorem c5_normalize_canonical :
    (∀ (input : List (String × List Tag)) (out : PacMap) (p : String) (td : TagDict),
        normalize_packages input = .ok out → (p, td) ∈ out →
        (td.map Prod.fst).Nodup) ∧
    (∀ (acc : TagDict) (t : String) (rest : List Tag),
        normalize_tags (Tag.str t :: rest) acc =
          normalize_tags (Tag.dict [(t, [])] :: rest) acc) ∧
    (∀ (l1 l2 : List Tag) (tag : Tag) (t : String) (acc td : TagDict),
        normalize_tags (l1 ++ tag :: l2) acc = .ok td →
        tagTemplateOf tag = some t →
        (∀ u ∈ l2, tagTemplateOf u ≠ some t) →
        dget td t = some (tagCanon tag)) := by
  refine ⟨fun input out p td h hm => normalize_packages_mem_nodup input out p td h hm,
    fun acc t rest => rfl, ?_⟩
  intro l1 l2 tag t acc td h htag hno
  obtain ⟨a1, h1, h⟩ := normalize_tags_append_ok l1 (tag :: l2) acc td h
  cases tag with
  | str s =>
    simp only [tagTemplateOf] at htag
    injection htag with htag
    simp only [normalize_tags] at h
    rw [normalize_tags_skip l2 _ td t hno h, ← htag]
    simpa [tagCanon] using dget_dinsert_self s [] a1
  | dict d =>
    cases d with
    | nil => simp [tagTemplateOf] at htag
    | cons pr ptl =>
      obtain ⟨ts, vr⟩ := pr
      simp only [tagTemplateOf] at htag
      injection htag with htag
      simp only [normalize_tags] at h
      rw [normalize_tags_skip l2 _ td t hno h, ← htag]
      simpa [tagCanon] using dget_dinsert_self ts vr a1
  | other ty => simp [tagTemplateOf] at htag

/-- C5 witness: a package declaring template `a` first with a variant
restriction and then as a bare string normalizes to a single entry holding
the last declaration's (empty) canonical value. -/
theorem c5_normalize_canonical_witness :
    normalize_tags ([Tag.dict [("a", [("variant", Val.s "V1")])]] ++ [Tag.str "a"]) [] =
      .ok [("a", [])] ∧
    dget [("a", ([] : Dict))] "a" = some (tagCanon (Tag.str "a")) :=
  ⟨by decide,
    c5_normalize_canonical.2.2 [Tag.dict [("a", [("variant", Val.s "V1")])]] []
      (Tag.str "a") "a" [] [("a", [])] (by decide) (by decide) (by decide)⟩

/-- C6 counterexample: a mapping with more than one key does not raise; the
Normalizer silently uses the first key/value pair, so the claimed
`ValueError` for non-single-key mappings does not occur. -/
theorem c6_multi_key_counterexample :
    normalize_packages [("p", [Tag.dict [("a", []), ("b", [])]])] =
      .ok [("p", [("a", [])])] := by decide

/-- C6 (amended): provided no tag declaration is an empty mapping, the
Normalizer fails with a `ValueError`-class error exactly when some tag
declaration is neither a string nor a mapping (a multi-key mapping is
accepted, its first entry winning); and when normalization fails, the
engine propagates that error with the state untouched, so the failure
happens before any remote call. -/
theorem c6_validation_amended :
    (∀ input : List (String × List Tag),
        (∀ p ∈ input, noEmptyDict p.2 = true) →
        ((∃ m, normalize_packages input = .error (.valueError m)) ↔
          (∃ p ∈ input, hasOther p.2 = true))) ∧
    (∀ (check_mode : Bool) (params : Dict) (pkgs : List (String × List Tag))
        (st : St) (e : Err) (nv : Val),
        dget params "name" = some nv →
        normalize_packages pkgs = .error e →
        ensure_cdn_repo check_mode params pkgs st = (.error e, st)) := by
  refine ⟨fun input hne => normalize_packages_valueError_iff input hne, ?_⟩
  intro check_mode params pkgs st e nv h1 h2
  simp [ensure_cdn_repo, dgetE, h1, h2]

/-- C6 witness: a tag declaration that is an `int` makes normalization fail
with `ValueError`, and the engine aborts with that error before issuing any
call. -/
theorem c6_validation_amended_witness :
    (∃ m, normalize_packages [("p", [Tag.other "int"])] = .error (.valueError m)) ∧
    ensure_cdn_repo false [("name", Val.s "r")] [("p", [Tag.other "int"])]
        ⟨⟨[], [], 0, 0⟩, []⟩ =
      (.error (.valueError "unexpected int"), ⟨⟨[], [], 0, 0⟩, []⟩) :=
  ⟨(c6_validation_amended.1 [("p", [Tag.other "int"])] (by decide)).mpr
      ⟨("p", [Tag.other "int"]), by decide, by decide⟩,
    c6_validation_amended.2 false [("name", Val.s "r")] [("p", [Tag.other "int"])]
      ⟨⟨[], [], 0, 0⟩, []⟩ (.valueError "unexpected int") (Val.s "r")
      (by decide) (by decide)⟩

end CdnRepo

namespace CdnRepo

/-- C7: resource lookup by declared name returns `None` on zero matches (no
error), raises the `multiple ... cdn_repos found` conflict `ValueError` on
more than one match, and on exactly one match returns the assembled record
whose `package_names` is derived from the packages relationship list of the
response. -/
theorem c7_resource_lookup :
    ∀ (name : Val) (st : St),
      (st.et.repos.filter (fun r => r.name == pyStr name) = [] →
        get_cdn_repo name none st = (.ok none, logCall (.getRepos (pyStr name)) st)) ∧
      (∀ (r1 r2 : RepoRec) (rest : List RepoRec),
        st.et.repos.filter (fun r => r.name == pyStr name) = r1 :: r2 :: rest →
        (get_cdn_repo name none st).1 =
          .error (.valueError ("multiple " ++ pyStr name ++ " cdn_repos found"))) ∧
      (∀ r : RepoRec, st.et.repos.filter (fun r' => r'.name == pyStr name) = [r] →
        (get_cdn_repo name none st).1 = .ok (some (assemble_cdn_repo (renderRepo r))) ∧
        dget (assemble_cdn_repo (renderRepo r)) "package_names" =
          some (.list r.packages)) := by
  intro name st
  refine ⟨?_, ?_, ?_⟩
  · intro h
    simp [get_cdn_repo, h]
  · intro r1 r2 rest h
    simp [get_cdn_repo, h]
  · intro r h
    refine ⟨by simp [get_cdn_repo, h], ?_⟩
    simp [assemble_cdn_repo, renderRepo, dget_dinsert_self]

/-- C7 witness: lookup of a uniquely named repository returns the assembled
record, with `package_names` taken from the relationship list. -/
theorem c7_resource_lookup_witness :
    (get_cdn_repo (.s "r") none
        ⟨⟨[⟨7, "r", [], "x86_64", [], ["pk"]⟩], [], 8, 0⟩, []⟩).1 =
      .ok (some (assemble_cdn_repo (renderRepo ⟨7, "r", [], "x86_64", [], ["pk"]⟩))) ∧
    dget (assemble_cdn_repo (renderRepo ⟨7, "r", [], "x86_64", [], ["pk"]⟩))
        "package_names" = some (.list ["pk"]) :=
  (c7_resource_lookup (.s "r")
      ⟨⟨[⟨7, "r", [], "x86_64", [], ["pk"]⟩], [], 8, 0⟩, []⟩).2.2
    ⟨7, "r", [], "x86_64", [], ["pk"]⟩ (by decide)

/-- C8 counterexample: with a present-but-empty current variant (`''`) and
no desired variant, only the current settings carry a variant sub-field, yet
the code emits a `changing` message (rendering the absent desired variant as
`"None"`), not the `removing` message the claimed case analysis requires. -/
theorem c8_variant_compare_counterexample :
    compare_package_tags "foo" "beta" [("variant", Val.s "")] [] =
      ["changing foo \"beta\" variant from \"\" to \"None\""] ∧
    compare_package_tags "foo" "beta" [("variant", Val.s "")] [] ≠
      ["removing \"\" variant from foo \"beta\" tag template"] := by decide

/-- C8 (amended): the tag comparison returns `[]` exactly when the two
`variant` values (read with `dict.get`, default `None`) are equal; otherwise
exactly one message: `removing` when the current variant is truthy and the
desired one falsy, `adding` when the current is falsy and the desired
truthy, and `changing` when both sides have the same truthiness (both
truthy, or unequal falsy values such as `''` versus absent); the claimed
example message for current variant `V1` on `foo`/`beta` holds verbatim. -/
theorem c8_variant_compare_amended :
    ∀ (package_name tag_template : String) (current desired : Dict),
      (pyGetNone current "variant" = pyGetNone desired "variant" →
        compare_package_tags package_name tag_template current desired = []) ∧
      (pyTruthy (pyGetNone current "variant") = true →
        pyTruthy (pyGetNone desired "variant") = false →
        compare_package_tags package_name tag_template current desired =
          ["removing \"" ++ pyStr (pyGetNone current "variant") ++ "\" variant from " ++
           package_name ++ " \"" ++ tag_template ++ "\" tag template"]) ∧
      (pyTruthy (pyGetNone current "variant") = false →
        pyTruthy (pyGetNone desired "variant") = true →
        compare_package_tags package_name tag_template current desired =
          ["adding \"" ++ pyStr (pyGetNone desired "variant") ++ "\" variant to " ++
           package_name ++ " \"" ++ tag_template ++ "\" tag template"]) ∧
      (pyGetNone current "variant" ≠ pyGetNone desired "variant" →
        pyTruthy (pyGetNone current "variant") = pyTruthy (pyGetNone desired "variant") →
        compare_package_tags package_name tag_template current desired =
          ["changing " ++ package_name ++ " \"" ++ tag_template ++ "\" variant from \"" ++
           pyStr (pyGetNone current "variant") ++ "\" to \"" ++
           pyStr (pyGetNone desired "variant") ++ "\""]) ∧
      compare_package_tags "foo" "beta" [("variant", Val.s "V1")] [] =
        ["removing \"V1\" variant from foo \"beta\" tag template"] := by
  intro package_name tag_template current desired
  refine ⟨?_, ?_, ?_, ?_, by decide⟩
  · intro h
    simp [compare_package_tags, h]
  · intro hct hdf
    have hne : pyGetNone current "variant" ≠ pyGetNone desired "variant" := by
      intro he
      rw [he, hdf] at hct
      exact absurd hct (by simp)
    simp [compare_package_tags, hne, hct, hdf]
  · intro hcf hdt
    have hne : pyGetNone current "variant" ≠ pyGetNone desired "variant" := by
      intro he
      rw [he, hdt] at hcf
      exact absurd hcf (by simp)
    simp [compare_package_tags, hne, hcf, hdt]
  · intro hne heq
    cases hct : pyTruthy (pyGetNone current "variant") with
    | true =>
      rw [hct] at heq
      simp [compare_package_tags, hne, hct, ← heq]
    | false =>
      rw [hct] at heq
      simp [compare_package_tags, hne, hct, ← heq]

/-- C8 witness: the amended case analysis applied at the claimed example
(current variant `V1`, no desired variant) yields the exact `removing`
message. -/
theorem c8_variant_compare_amended_witness :
    pyTruthy (pyGetNone [("variant", Val.s "V1")] "variant") = true ∧
    compare_package_tags "foo" "beta" [("variant", Val.s "V1")] [] =
      ["removing \"" ++ pyStr (pyGetNone [("variant", Val.s "V1")] "variant") ++
       "\" variant from foo \"beta\" tag template"] :=
  ⟨by decide,
    (c8_variant_compare_amended "foo" "beta" [("variant", Val.s "V1")] []).2.1
      (by decide) (by decide)⟩

/-- C10: a falsy variant value (`None` and the empty string are falsy)
behaves exactly like an absent variant in the mutation helpers: the POSTed
tag-creation body carries `variant_name` only for a truthy variant, and the
PUT tag-edit settings carry `variant_id: None` (clearing the restriction)
whenever the desired variant is falsy, `variant_name` only when truthy. -/
theorem c10_falsy_variant_handling :
    ∀ (repo_name package_name tag_template : String) (variant : Val) (i : Nat)
      (desired_tag : Dict) (st : St),
      (pyTruthy Val.vnone = false ∧ pyTruthy (Val.s "") = false) ∧
      (add_package_tag repo_name package_name tag_template variant st).2.calls =
        st.calls ++ [.postTag (if pyTruthy variant then
          [("cdn_repo_name", .s repo_name), ("package_name", .s package_name),
           ("tag_template", .s tag_template), ("variant_name", variant)]
          else
          [("cdn_repo_name", .s repo_name), ("package_name", .s package_name),
           ("tag_template", .s tag_template)])] ∧
      (edit_package_tag (.n i) desired_tag st).2.calls =
        st.calls ++ [.putTag i (if pyTruthy (pyGetNone desired_tag "variant") then
          [("variant_name", pyGetNone desired_tag "variant")]
          else [("variant_id", Val.vnone)])] := by
  intro rn pn tt v i d st
  refine ⟨⟨rfl, by decide⟩, ?_, ?_⟩
  · cases hv : pyTruthy v <;> simp [add_package_tag, logCall, dinsert, hv]
  · cases hv : pyTruthy (pyGetNone d "variant") <;>
      simp [edit_package_tag, logCall, hv]

end CdnRepo

namespace CdnRepo

theorem mem_dkeys_isSome {β : Type} (d : List (String × β)) (tt : String)
    (h : tt ∈ dkeys d) : (dget d tt).isSome = true := by
  induction d with
  | nil => simp [dkeys] at h
  | cons hd tl ih =>
    obtain ⟨k, v⟩ := hd
    simp only [dkeys, List.mem_cons] at h
    rcases h with h | h
    · subst h
      simp [dget]
    · have h2 := List.of_mem_filter h
      have h3 := List.mem_of_mem_filter h
      simp only [decide_eq_true_eq] at h2
      simp only [dget]
      rw [if_neg (fun hh => h2 hh.symm)]
      exact ih h3

theorem setDiff_nil_right (a : List String) : setDiff a [] = a := by
  simp [setDiff, List.contains]

theorem add_tags_loop_spec (repo_name package_name : String) (check_mode : Bool)
    (desired_tags : TagDict) (tts : List String) (ch : List String) (st : St)
    (hmem : ∀ tt ∈ tts, (dget desired_tags tt).isSome = true) :
    ∃ st',
      add_tags_loop repo_name package_name check_mode desired_tags tts ch st =
        (.ok (ch ++ tts.map (fun tt =>
          "adding \"" ++ tt ++ "\" tag template to \"" ++ package_name ++ "\"")), st') ∧
      st'.et.repos = st.et.repos ∧
      (∀ c ∈ st'.calls, c ∈ st.calls ∨ ∃ body, c = CallRec.postTag body) ∧
      (∃ tail, st'.et.assocs = st.et.assocs ++ tail) := by
  induction tts generalizing ch st with
  | nil =>
    exact ⟨st, by simp [add_tags_loop], rfl, fun c hc => .inl hc, [], by simp⟩
  | cons tt rest ih =>
    have htt : (dget desired_tags tt).isSome = true := hmem tt (by simp)
    have hrest : ∀ tt' ∈ rest, (dget desired_tags tt').isSome = true :=
      fun tt' h => hmem tt' (by simp [h])
    cases check_mode with
    | true =>
      obtain ⟨st', h1, h2, h3, h4⟩ := ih (ch ++
        ["adding \"" ++ tt ++ "\" tag template to \"" ++ package_name ++ "\""]) st hrest
      refine ⟨st', ?_, h2, h3, h4⟩
      simp only [add_tags_loop, if_pos rfl, h1]
      simp
    | false =>
      obtain ⟨tag, htag⟩ := Option.isSome_iff_exists.mp htt
      set st1 : St := (add_package_tag repo_name package_name tt
        (pyGetNone tag "variant") st).2 with hst1
      obtain ⟨st', h1, h2, h3, h4⟩ := ih (ch ++
        ["adding \"" ++ tt ++ "\" tag template to \"" ++ package_name ++ "\""]) st1 hrest
      refine ⟨st', ?_, ?_, ?_, ?_⟩
      · simp only [add_tags_loop, Bool.false_eq_true, if_false, dgetE, htag,
          add_package_tag]
        simp only [add_package_tag, hst1] at h1
        rw [h1]
        simp
      · rw [h2, hst1]
        simp [add_package_tag, logCall]
      · intro c hc
        rcases h3 c hc with hc1 | hc1
        · rw [hst1] at hc1
          simp only [add_package_tag, logCall, List.mem_append] at hc1
          rcases hc1 with hc2 | hc2
          · exact .inl hc2
          · simp only [List.mem_singleton] at hc2
            exact .inr ⟨_, hc2⟩
        · exact .inr hc1
      · obtain ⟨tail, htail⟩ := h4
        rw [htail, hst1]
        simp [add_package_tag, logCall]

/-- C9: when the per-package reconciliation is handed the empty current map
(Python's `current.get(package_name, [])` default for a package absent from
the remote read), it completes without raising, performs no deletions and no
modifications (every call it issues is a tag-creation POST, and the remote
associations only grow), and reports exactly one `adding` change per desired
tag template.  Both the Python empty list and the empty dict are embedded as
the empty association list, which is faithful because the only operations
applied to the value are iteration, membership and subscription. -/
theorem c9_absent_package_empty_current :
    ∀ (repo_name package_name : String) (check_mode : Bool) (desired_tags : TagDict)
      (st : St),
      ∃ st',
        ensure_package_tags repo_name package_name check_mode [] desired_tags st =
          (.ok ((dkeys desired_tags).map (fun tt =>
            "adding \"" ++ tt ++ "\" tag template to \"" ++ package_name ++ "\"")), st') ∧
        st'.et.repos = st.et.repos ∧
        (∀ c ∈ st'.calls, c ∈ st.calls ∨ ∃ body, c = CallRec.postTag body) ∧
        (∃ tail, st'.et.assocs = st.et.assocs ++ tail) := by
  intro repo_name package_name check_mode desired_tags st
  obtain ⟨st', h1, h2, h3, h4⟩ := add_tags_loop_spec repo_name package_name check_mode
    desired_tags (setDiff (dkeys desired_tags) (dkeys ([] : TagDict))) [] st
    (fun tt h => mem_dkeys_isSome _ _ (List.mem_of_mem_filter h))
  refine ⟨st', ?_, h2, h3, h4⟩
  simp only [ensure_package_tags, dkeys, setDiff, List.filter_nil, delete_tags_loop,
    setInter, modify_tags_loop]
  rw [show (setDiff (dkeys desired_tags) (dkeys ([] : TagDict))) =
      dkeys desired_tags from setDiff_nil_right _] at h1
  simpa [setDiff_nil_right] using h1

end CdnRepo

namespace CdnRepo

/-- C9 witness: the per-package reconciliation over an empty current map and
one desired template, in real mode, starting from an empty remote. -/
theorem c9_absent_package_empty_current_witness :
    ∃ st',
      ensure_package_tags "r" "p" false [] [("t", [])] ⟨⟨[], [], 0, 0⟩, []⟩ =
        (.ok ((dkeys [("t", ([] : Dict))]).map (fun tt =>
          "adding \"" ++ tt ++ "\" tag template to \"" ++ "p" ++ "\"")), st') ∧
      st'.et.repos = (⟨⟨[], [], 0, 0⟩, []⟩ : St).et.repos ∧
      (∀ c ∈ st'.calls, c ∈ (⟨⟨[], [], 0, 0⟩, []⟩ : St).calls ∨
        ∃ body, c = CallRec.postTag body) ∧
      (∃ tail, st'.et.assocs = (⟨⟨[], [], 0, 0⟩, []⟩ : St).et.assocs ++ tail) :=
  c9_absent_package_empty_current "r" "p" false [("t", [])] ⟨⟨[], [], 0, 0⟩, []⟩

end CdnRepo

namespace CdnRepo

theorem get_package_tags_spec (name : String) (st : St) :
    get_package_tags name st =
      ((((st.et.assocs.filter (fun a => a.repo == name)).take PAGE_SIZE).map
          assocElement).foldl addElement [],
        logCall (.getTagsPage name 1) st) := by
  have h2 : st.et.assocs.length / PAGE_SIZE + 2 =
      (st.et.assocs.length / PAGE_SIZE + 1) + 1 := rfl
  rw [get_package_tags, h2]
  simp [get_package_tags_loop, get_package_tags_page, pyListEqNat]

theorem get_cdn_repo_state (name : Val) (st : St) :
    (get_cdn_repo name none st).2 = logCall (.getRepos (pyStr name)) st := by
  simp only [get_cdn_repo]
  split <;> rfl

theorem edit_cdn_repo_state (i : Val) (diffs : List (String × Val × Val)) (st : St) :
    ((edit_cdn_repo i diffs st).2).et.assocs = st.et.assocs ∧
    ((edit_cdn_repo i diffs st).2).calls = st.calls ∨
    ∃ j data, ((edit_cdn_repo i diffs st).2).calls = st.calls ++ [.putRepo j data] := by
  cases i <;> simp [edit_cdn_repo, serverEditRepo, logCall]

theorem delete_tags_loop_check (package_name : String) (ct : TagDict)
    (tts : List String) (ch : List String) (st : St) :
    delete_tags_loop package_name true ct tts ch st =
      (.ok (ch ++ tts.map (fun tt =>
        "removing \"" ++ tt ++ "\" tag template from \"" ++ package_name ++ "\"")), st) := by
  induction tts generalizing ch with
  | nil => simp [delete_tags_loop]
  | cons tt rest ih => simp [delete_tags_loop, ih]

theorem add_tags_loop_check (repo_name package_name : String) (dt : TagDict)
    (tts : List String) (ch : List String) (st : St) :
    add_tags_loop repo_name package_name true dt tts ch st =
      (.ok (ch ++ tts.map (fun tt =>
        "adding \"" ++ tt ++ "\" tag template to \"" ++ package_name ++ "\"")), st) := by
  induction tts generalizing ch with
  | nil => simp [add_tags_loop]
  | cons tt rest ih => simp [add_tags_loop, ih]

theorem modify_tags_loop_check_state (package_name : String) (ct dt : TagDict)
    (tts : List String) (ch : List String) (st : St) :
    (modify_tags_loop package_name true ct dt tts ch st).2 = st := by
  induction tts generalizing ch with
  | nil => simp [modify_tags_loop]
  | cons tt rest ih =>
    simp only [modify_tags_loop]
    cases h1 : dgetE ct tt with
    | error e => simp
    | ok c0 =>
      cases h2 : dgetE dt tt with
      | error e => simp
      | ok dtag =>
        cases h3 : dgetE c0 "id" with
        | error e => simp [h3]
        | ok tid =>
          by_cases hd : compare_package_tags package_name tt (dremove "id" c0) dtag = []
          · simp [h3, hd, ih]
          · simp [h3, hd, ih]

end CdnRepo

namespace CdnRepo

theorem delete_tags_loop_real (package_name : String) (ct : TagDict)
    (tts : List String) (ch chs : List String) (st st' : St)
    (h : delete_tags_loop package_name false ct tts ch st = (.ok chs, st')) :
    chs = ch ++ tts.map (fun tt =>
      "removing \"" ++ tt ++ "\" tag template from \"" ++ package_name ++ "\"") := by
  induction tts generalizing ch st with
  | nil =>
    simp only [delete_tags_loop, Prod.mk.injEq, Except.ok.injEq] at h
    simpa using h.1.symm
  | cons tt rest ih =>
    simp only [delete_tags_loop, Bool.false_eq_true, if_false] at h
    cases h1 : dgetE ct tt with
    | error e => simp only [h1] at h; simp at h
    | ok settings =>
      simp only [h1] at h
      cases h2 : dgetE settings "id" with
      | error e => simp only [h2] at h; simp at h
      | ok tid =>
        simp only [h2] at h
        cases tid with
        | n i =>
          simp only [delete_package_tag] at h
          have := ih _ _ h
          simpa [List.append_assoc] using this
        | vnone => simp [delete_package_tag] at h
        | s v => simp [delete_package_tag] at h
        | b v => simp [delete_package_tag] at h
        | list v => simp [delete_package_tag] at h

theorem add_tags_loop_real (repo_name package_name : String) (dt : TagDict)
    (tts : List String) (ch chs : List String) (st st' : St)
    (h : add_tags_loop repo_name package_name false dt tts ch st = (.ok chs, st')) :
    chs = ch ++ tts.map (fun tt =>
      "adding \"" ++ tt ++ "\" tag template to \"" ++ package_name ++ "\"") := by
  induction tts generalizing ch st with
  | nil =>
    simp only [add_tags_loop, Prod.mk.injEq, Except.ok.injEq] at h
    simpa using h.1.symm
  | cons tt rest ih =>
    simp only [add_tags_loop, Bool.false_eq_true, if_false] at h
    cases h1 : dgetE dt tt with
    | error e => simp only [h1] at h; simp at h
    | ok tag =>
      simp only [h1, add_package_tag] at h
      have := ih _ _ h
      simpa [List.append_assoc] using this

theorem modify_tags_loop_rel (package_name : String) (ct dt : TagDict)
    (tts : List String) (ch chs : List String) (st1 st2 st2' : St)
    (h : modify_tags_loop package_name false ct dt tts ch st2 = (.ok chs, st2')) :
    modify_tags_loop package_name true ct dt tts ch st1 = (.ok chs, st1) := by
  induction tts generalizing ch st2 with
  | nil =>
    simp only [modify_tags_loop, Prod.mk.injEq, Except.ok.injEq] at h ⊢
    exact ⟨h.1, trivial⟩
  | cons tt rest ih =>
    simp only [modify_tags_loop] at h ⊢
    cases h1 : dgetE ct tt with
    | error e => simp only [h1] at h; simp at h
    | ok c0 =>
      simp only [h1] at h ⊢
      cases h2 : dgetE dt tt with
      | error e => simp only [h2] at h; simp at h
      | ok dtag =>
        simp only [h2] at h ⊢
        cases h3 : dgetE c0 "id" with
        | error e => simp only [h3] at h; simp at h
        | ok tid =>
          simp only [h3] at h ⊢
          by_cases hd : compare_package_tags package_name tt (dremove "id" c0) dtag = []
          · rw [if_pos hd] at h ⊢
            exact ih _ _ h
          · rw [if_neg hd] at h ⊢
            simp only [Bool.false_eq_true, if_false] at h
            simp only [if_true]
            cases tid with
            | n i =>
              simp only [edit_package_tag] at h
              exact ih _ _ h
            | vnone => simp [edit_package_tag] at h
            | s v => simp [edit_package_tag] at h
            | b v => simp [edit_package_tag] at h
            | list v => simp [edit_package_tag] at h

end CdnRepo

namespace CdnRepo

theorem ensure_package_tags_rel (repo_name package_name : String) (ct dt : TagDict)
    (chs : List String) (st1 st2 st2' : St)
    (h : ensure_package_tags repo_name package_name false ct dt st2 = (.ok chs, st2')) :
    ensure_package_tags repo_name package_name true ct dt st1 = (.ok chs, st1) := by
  simp only [ensure_package_tags] at h ⊢
  rcases hdel : delete_tags_loop package_name false ct
      (setDiff (dkeys ct) (dkeys dt)) [] st2 with ⟨rdel, sdel⟩
  cases rdel with
  | error e => simp only [hdel] at h; simp at h
  | ok ch1 =>
    simp only [hdel] at h
    have hch1 := delete_tags_loop_real package_name ct _ [] ch1 st2 sdel hdel
    rw [delete_tags_loop_check, ← hch1]
    dsimp only
    rcases hmod : modify_tags_loop package_name false ct dt
        (setInter (dkeys ct) (dkeys dt)) ch1 sdel with ⟨rmod, smod⟩
    cases rmod with
    | error e =>
      simp only [hmod] at h
      simp at h
    | ok ch2 =>
      simp only [hmod] at h
      rw [modify_tags_loop_rel package_name ct dt _ ch1 ch2 st1 sdel smod hmod]
      dsimp only
      have hchs := add_tags_loop_real repo_name package_name dt _ ch2 chs smod st2' h
      rw [add_tags_loop_check, ← hchs]

theorem packages_tags_loop_rel (name : String) (cur : PacMap) (pkgs : PacMap)
    (ch chs : List String) (st1 st2 st2' : St)
    (h : packages_tags_loop name false cur pkgs ch st2 = (.ok chs, st2')) :
    packages_tags_loop name true cur pkgs ch st1 = (.ok chs, st1) := by
  induction pkgs generalizing ch st2 with
  | nil =>
    simp only [packages_tags_loop, Prod.mk.injEq, Except.ok.injEq] at h ⊢
    exact ⟨h.1, trivial⟩
  | cons hd rest ih =>
    obtain ⟨pn, dt⟩ := hd
    simp only [packages_tags_loop] at h ⊢
    rcases hens : ensure_package_tags name pn false ((dget cur pn).getD []) dt st2
      with ⟨rens, sens⟩
    cases rens with
    | error e => simp only [hens] at h; simp at h
    | ok pch =>
      simp only [hens] at h
      rw [ensure_package_tags_rel name pn ((dget cur pn).getD []) dt pch st1 st2 sens hens]
      dsimp only
      exact ih _ _ h

theorem ensure_packages_tags_rel (name : String) (pkgs : PacMap)
    (chs : List String) (cur : PacMap) (st1 st2 st2' : St)
    (hass : st1.et.assocs = st2.et.assocs)
    (h : ensure_packages_tags name false pkgs st2 = (.ok (chs, cur), st2')) :
    ensure_packages_tags name true pkgs st1 =
      (.ok (chs, cur), logCall (.getTagsPage name 1) st1) := by
  simp only [ensure_packages_tags, get_package_tags_spec] at h ⊢
  rw [hass]
  rcases hloop : packages_tags_loop name false
      ((((st2.et.assocs.filter (fun a => a.repo == name)).take PAGE_SIZE).map
        assocElement).foldl addElement []) pkgs []
      (logCall (.getTagsPage name 1) st2) with ⟨rl, sl⟩
  cases rl with
  | error e => simp only [hloop] at h; simp at h
  | ok chs0 =>
    simp only [hloop] at h
    simp only [Prod.mk.injEq, Except.ok.injEq] at h
    obtain ⟨⟨hchs, hcur2⟩, _⟩ := h
    rw [packages_tags_loop_rel name _ pkgs [] chs0 (logCall (.getTagsPage name 1) st1)
      (logCall (.getTagsPage name 1) st2) sl hloop]
    dsimp only
    rw [hchs, hcur2]

theorem ensure_package_tags_check_state (repo_name package_name : String)
    (ct dt : TagDict) (st : St) :
    (ensure_package_tags repo_name package_name true ct dt st).2 = st := by
  simp only [ensure_package_tags]
  rw [delete_tags_loop_check]
  set ch0 := [] ++ (setDiff (dkeys ct) (dkeys dt)).map (fun tt =>
    "removing \"" ++ tt ++ "\" tag template from \"" ++ package_name ++ "\"") with hch0
  rcases hmod : modify_tags_loop package_name true ct dt
      (setInter (dkeys ct) (dkeys dt)) ch0 st with ⟨rm, sm⟩
  have hsm : sm = st := by
    have h2 := modify_tags_loop_check_state package_name ct dt
      (setInter (dkeys ct) (dkeys dt)) ch0 st
    rw [hmod] at h2
    exact h2
  subst hsm
  cases rm with
  | error e => simp [hmod]
  | ok ch2 =>
    simp only [hmod]
    try dsimp only
    rw [add_tags_loop_check]

theorem packages_tags_loop_check_state (name : String) (cur : PacMap) (pkgs : PacMap)
    (ch : List String) (st : St) :
    (packages_tags_loop name true cur pkgs ch st).2 = st := by
  induction pkgs generalizing ch with
  | nil => rfl
  | cons hd rest ih =>
    obtain ⟨pn, dt⟩ := hd
    simp only [packages_tags_loop]
    rcases hens : ensure_package_tags name pn true ((dget cur pn).getD []) dt st
      with ⟨re, se⟩
    have hse : se = st := by
      have := ensure_package_tags_check_state name pn ((dget cur pn).getD []) dt st
      rw [hens] at this
      exact this
    subst hse
    cases re with
    | error e => simp [hens]
    | ok pch =>
      simp only [hens]
      try dsimp only
      exact ih _

theorem ensure_packages_tags_check (name : String) (pkgs : PacMap) (st : St) :
    (ensure_packages_tags name true pkgs st).2 = logCall (.getTagsPage name 1) st := by
  simp only [ensure_packages_tags, get_package_tags_spec]
  rcases hl : packages_tags_loop name true
      ((((st.et.assocs.filter (fun a => a.repo == name)).take PAGE_SIZE).map
        assocElement).foldl addElement []) pkgs []
      (logCall (.getTagsPage name 1) st) with ⟨rl, sl⟩
  have hsl : sl = logCall (.getTagsPage name 1) st := by
    have h2 := packages_tags_loop_check_state name
      ((((st.et.assocs.filter (fun a => a.repo == name)).take PAGE_SIZE).map
        assocElement).foldl addElement []) pkgs [] (logCall (.getTagsPage name 1) st)
    rw [hl] at h2
    exact h2
  subst hsl
  cases rl with
  | error e => rw [hl]
  | ok chs0 => rw [hl]

end CdnRepo

namespace CdnRepo

theorem readOnlyExt_refl (st : St) : readOnlyExt st st :=
  ⟨rfl, [], by simp, rfl⟩

theorem readOnlyExt_log (st : St) (c : CallRec) (hc : isMutating c = false) :
    readOnlyExt st (logCall c st) :=
  ⟨rfl, [c], rfl, by simp [hc]⟩

theorem readOnlyExt_trans {a b c : St} (h1 : readOnlyExt a b) (h2 : readOnlyExt b c) :
    readOnlyExt a c := by
  obtain ⟨he1, t1, ht1, hf1⟩ := h1
  obtain ⟨he2, t2, ht2, hf2⟩ := h2
  exact ⟨he2.trans he1, t1 ++ t2, by rw [ht2, ht1, List.append_assoc],
    by simp [List.filter_append, hf1, hf2]⟩

theorem edit_cdn_repo_assocs (i : Val) (diffs : List (String × Val × Val)) (st : St) :
    ((edit_cdn_repo i diffs st).2).et.assocs = st.et.assocs := by
  cases i <;> simp [edit_cdn_repo, serverEditRepo, logCall]

theorem ensure_cdn_repo_rest_check_state (name : Val) (params : Dict) (pkgs : PacMap)
    (res : Result) (A : Dict) (st : St) :
    (ensure_cdn_repo_rest true name params pkgs res A st).2 =
      logCall (.getTagsPage (pyStr name) 1) st := by
  simp only [ensure_cdn_repo_rest]
  by_cases hdf : diff_settings A params = [] <;>
    · simp only [hdf, if_true, if_false, ite_true, ite_false, if_pos, reduceIte]
      rcases he : ensure_packages_tags (pyStr name) true pkgs st with ⟨re, se⟩
      have hse : se = logCall (.getTagsPage (pyStr name) 1) st := by
        have h2 := ensure_packages_tags_check (pyStr name) pkgs st
        rw [he] at h2
        exact h2
      subst hse
      cases re with
      | error e => rfl
      | ok pr =>
        obtain ⟨chs, cur⟩ := pr
        rfl

end CdnRepo

namespace CdnRepo

theorem get_cdn_repo_single (nv : Val) (st : St) (r : RepoRec)
    (hfil : st.et.repos.filter (fun x => x.name == pyStr nv) = [r]) :
    get_cdn_repo nv none st =
      (.ok (some (assemble_cdn_repo (renderRepo r))),
        logCall (.getRepos (pyStr nv)) st) := by
  simp [get_cdn_repo, hfil]

theorem ensure_cdn_repo_rest_rel (name : Val) (params : Dict) (pkgs : PacMap)
    (res : Result) (A : Dict) (st st2 : St) (rr : Result)
    (h : ensure_cdn_repo_rest false name params pkgs res A st = (.ok rr, st2)) :
    ∃ stc, ensure_cdn_repo_rest true name params pkgs res A st = (.ok rr, stc) := by
  by_cases hdf : diff_settings A params = []
  · simp only [ensure_cdn_repo_rest, hdf, reduceIte] at h ⊢
    rcases he : ensure_packages_tags (pyStr name) false pkgs st with ⟨re, se⟩
    cases re with
    | error e => simp only [he] at h; simp at h
    | ok pr =>
      obtain ⟨chs, cur⟩ := pr
      simp only [he] at h
      have hrel := ensure_packages_tags_rel (pyStr name) pkgs chs cur st st se rfl he
      rw [hrel]
      dsimp only
      simp only [Prod.mk.injEq, Except.ok.injEq] at h
      exact ⟨_, by rw [h.1]⟩
  · simp only [ensure_cdn_repo_rest, if_neg hdf, Bool.false_eq_true, if_false,
      if_true] at h ⊢
    cases hid : dgetE A "id" with
    | error e => simp only [hid] at h; simp at h
    | ok i =>
      simp only [hid] at h
      cases i with
      | n j =>
        rw [show edit_cdn_repo (.n j) (diff_settings A params) st =
            (.ok (), (edit_cdn_repo (.n j) (diff_settings A params) st).2) from rfl] at h
        dsimp only at h
        rcases he : ensure_packages_tags (pyStr name) false pkgs
            ((edit_cdn_repo (.n j) (diff_settings A params) st).2) with ⟨re, se⟩
        cases re with
        | error e => simp only [he] at h; simp at h
        | ok pr =>
          obtain ⟨chs, cur⟩ := pr
          simp only [he] at h
          have hrel := ensure_packages_tags_rel (pyStr name) pkgs chs cur st
            ((edit_cdn_repo (.n j) (diff_settings A params) st).2) se
            (edit_cdn_repo_assocs (.n j) (diff_settings A params) st).symm he
          rw [hrel]
          dsimp only
          simp only [Prod.mk.injEq, Except.ok.injEq] at h
          exact ⟨_, by rw [h.1]⟩
      | vnone => simp [edit_cdn_repo] at h
      | s v => simp [edit_cdn_repo] at h
      | b v => simp [edit_cdn_repo] at h
      | list v => simp [edit_cdn_repo] at h

end CdnRepo

namespace CdnRepo

/-- C1 (amended): (1) a dry run never touches the remote state and appends
only read calls to the log, for every starting state, including when the
resource must be created; (2) whenever the resource already exists (its
name matches exactly one remote record), a completed real run and the dry
run return the very same result — in particular the same `changed` flag and
the same ordered change list; (3) when the resource does not exist, the dry
run reports exactly the creation message and stops.  (The original claim's
creation-case equality is refuted by
`c1_dry_run_creation_counterexample`: a real run additionally reports the
package tag changes it performs after creating the repository, while the
dry run returns early.) -/
theorem c1_dry_run_equivalence :
    (∀ (params : Dict) (pkgs : List (String × List Tag)) (st : St),
        readOnlyExt st (ensure_cdn_repo true params pkgs st).2) ∧
    (∀ (params : Dict) (pkgs : List (String × List Tag)) (st : St) (nv : Val)
        (r : RepoRec) (rr : Result) (st2 : St),
        dget params "name" = some nv →
        st.et.repos.filter (fun x => x.name == pyStr nv) = [r] →
        ensure_cdn_repo false params pkgs st = (.ok rr, st2) →
        ∃ stc, ensure_cdn_repo true params pkgs st = (.ok rr, stc)) ∧
    (∀ (params : Dict) (pkgs : List (String × List Tag)) (st : St) (nv : Val)
        (pk : PacMap),
        dget params "name" = some nv →
        normalize_packages pkgs = .ok pk →
        st.et.repos.filter (fun x => x.name == pyStr nv) = [] →
        resultStdout (ensure_cdn_repo true params pkgs st) =
          some ["created " ++ pyStr nv]) := by
  refine ⟨?_, ?_, ?_⟩
  · intro params pkgs st
    simp only [ensure_cdn_repo]
    cases hn : dgetE params "name" with
    | error e => exact readOnlyExt_refl st
    | ok nv =>
      cases hnorm : normalize_packages pkgs with
      | error e => exact readOnlyExt_refl st
      | ok pk =>
        dsimp only
        rcases hg : get_cdn_repo nv none st with ⟨rg, sg⟩
        have hsg : sg = logCall (.getRepos (pyStr nv)) st := by
          have h2 := get_cdn_repo_state nv st
          rw [hg] at h2
          exact h2
        subst hsg
        have hro : readOnlyExt st (logCall (.getRepos (pyStr nv)) st) :=
          readOnlyExt_log st _ rfl
        cases rg with
        | error e => exact hro
        | ok repo0 =>
          cases repo0 with
          | none => exact hro
          | some A =>
            have h3 := ensure_cdn_repo_rest_check_state nv
              (dinsert "package_names" (.list (pkgs.map (fun p => p.1))) params) pk
              { changed := false, stdout_lines := [], diff := none } A
              (logCall (.getRepos (pyStr nv)) st)
            refine readOnlyExt_trans hro ?_
            show readOnlyExt (logCall (.getRepos (pyStr nv)) st)
              (ensure_cdn_repo_rest true nv
                (dinsert "package_names" (.list (pkgs.map (fun p => p.1))) params) pk
                { changed := false, stdout_lines := [], diff := none } A
                (logCall (.getRepos (pyStr nv)) st)).2
            rw [h3]
            exact readOnlyExt_log _ _ rfl
  · intro params pkgs st nv r rr st2 hname hfil h
    simp only [ensure_cdn_repo, dgetE, hname] at h ⊢
    cases hn : normalize_packages pkgs with
    | error e => simp only [hn] at h; simp at h
    | ok pk =>
      simp only [hn] at h ⊢
      simp only [get_cdn_repo_single nv st r hfil] at h ⊢
      exact ensure_cdn_repo_rest_rel nv _ pk _ _ _ st2 rr h
  · intro params pkgs st nv pk hname hn hfil
    have hg : get_cdn_repo nv none st =
        (.ok none, logCall (.getRepos (pyStr nv)) st) := by
      simp [get_cdn_repo, hfil]
    simp only [ensure_cdn_repo, dgetE, hname, hn, hg]
    rfl

/-- C1 counterexample: when the resource does not yet exist, check mode and
real mode do not produce the same change list — the dry run stops at the
creation message while the real run additionally reports the tag additions
it performs after creating the repository. -/
theorem c1_dry_run_creation_counterexample :
    resultStdout (ensure_cdn_repo true
        [("name", .s "r"), ("release_type", .s "Primary"), ("content_type", .s "Docker"),
         ("arch", .s "multi"), ("use_for_tps", .b false), ("variants", .list ["V"])]
        [("pkg", [.str "latest"])] ⟨⟨[], [], 0, 0⟩, []⟩) = some ["created r"] ∧
    resultStdout (ensure_cdn_repo false
        [("name", .s "r"), ("release_type", .s "Primary"), ("content_type", .s "Docker"),
         ("arch", .s "multi"), ("use_for_tps", .b false), ("variants", .list ["V"])]
        [("pkg", [.str "latest"])] ⟨⟨[], [], 0, 0⟩, []⟩) =
      some ["created r", "adding \"latest\" tag template to \"pkg\""] ∧
    (["created r"] : List String) ≠
      ["created r", "adding \"latest\" tag template to \"pkg\""] := by decide

/-- C1 witness: for a starting state in which the resource exists and
already matches the declaration, the real run returns an unchanged result
and the dry run returns the very same result. -/
theorem c1_dry_run_equivalence_witness :
    dget [("name", Val.s "r"), ("release_type", .s "Primary"),
      ("content_type", .s "Binary"), ("arch", .s "x86_64"),
      ("use_for_tps", .b false), ("variants", .list [])] "name" = some (.s "r") ∧
    (⟨⟨[⟨1, "r", [("release_type", .s "Primary"), ("content_type", .s "Binary"),
        ("use_for_tps", .b false)], "x86_64", [], []⟩], [], 2, 0⟩, []⟩ :
        St).et.repos.filter (fun x => x.name == pyStr (.s "r")) =
      [⟨1, "r", [("release_type", .s "Primary"), ("content_type", .s "Binary"),
        ("use_for_tps", .b false)], "x86_64", [], []⟩] ∧
    ∃ stc, ensure_cdn_repo true
        [("name", Val.s "r"), ("release_type", .s "Primary"),
         ("content_type", .s "Binary"), ("arch", .s "x86_64"),
         ("use_for_tps", .b false), ("variants", .list [])] []
        ⟨⟨[⟨1, "r", [("release_type", .s "Primary"), ("content_type", .s "Binary"),
          ("use_for_tps", .b false)], "x86_64", [], []⟩], [], 2, 0⟩, []⟩ =
      (.ok ⟨false, [], none⟩, stc) :=
  ⟨by decide, by decide,
    c1_dry_run_equivalence.2.1
      [("name", Val.s "r"), ("release_type", .s "Primary"),
       ("content_type", .s "Binary"), ("arch", .s "x86_64"),
       ("use_for_tps", .b false), ("variants", .list [])] []
      ⟨⟨[⟨1, "r", [("release_type", .s "Primary"), ("content_type", .s "Binary"),
        ("use_for_tps", .b false)], "x86_64", [], []⟩], [], 2, 0⟩, []⟩
      (.s "r")
      ⟨1, "r", [("release_type", .s "Primary"), ("content_type", .s "Binary"),
        ("use_for_tps", .b false)], "x86_64", [], []⟩
      ⟨false, [], none⟩
      ⟨⟨[⟨1, "r", [("release_type", .s "Primary"), ("content_type", .s "Binary"),
        ("use_for_tps", .b false)], "x86_64", [], []⟩], [], 2, 0⟩,
        [.getRepos "r", .getTagsPage "r" 1]⟩
      (by decide) (by decide) (by decide)⟩

end CdnRepo

namespace CdnRepo

/-- C2 (code bug): with 101 associations for the repository, the listing
loop requests only page 1 and returns a mapping missing the association
that lives on page 2, although that association is present on the remote.
The loop condition `found == PAGE_SIZE` compares a list with an integer,
which is always `False` in Python, so pagination never continues past the
first page. -/
theorem c2_pagination_code_bug :
    (⟨100, "r", "p", "t100", none⟩ : Assoc) ∈
      (⟨⟨[], (List.range 101).map (fun i =>
          ⟨i, "r", "p", "t" ++ toString i, none⟩), 0, 101⟩, []⟩ : St).et.assocs ∧
    ((dget (get_package_tags "r"
        ⟨⟨[], (List.range 101).map (fun i =>
          ⟨i, "r", "p", "t" ++ toString i, none⟩), 0, 101⟩, []⟩).1 "p").bind
      (fun td => dget td "t100") = none) ∧
    ((dget (get_package_tags "r"
        ⟨⟨[], (List.range 101).map (fun i =>
          ⟨i, "r", "p", "t" ++ toString i, none⟩), 0, 101⟩, []⟩).1 "p").bind
      (fun td => dget td "t99")).isSome = true ∧
    (get_package_tags "r"
        ⟨⟨[], (List.range 101).map (fun i =>
          ⟨i, "r", "p", "t" ++ toString i, none⟩), 0, 101⟩, []⟩).2.calls =
      [.getTagsPage "r" 1] := by decide

/-- C3 (code bug): a package present on the remote but absent from the
declared mapping is never processed: the whole-repository reconciliation
iterates only the declared packages, so the remote-only package `bar` keeps
its tag association, no removal is reported, and no mutating call is
issued — where the claim requires each of its associations to be reported
and deleted. -/
theorem c3_remote_only_package_code_bug :
    (ensure_packages_tags "r" false []
        ⟨⟨[], [⟨1, "r", "bar", "latest", none⟩], 0, 2⟩, []⟩).1 =
      .ok ([], [("bar", [("latest", [("id", Val.n 1)])])]) ∧
    (ensure_packages_tags "r" false []
        ⟨⟨[], [⟨1, "r", "bar", "latest", none⟩], 0, 2⟩, []⟩).2.et.assocs =
      [⟨1, "r", "bar", "latest", none⟩] ∧
    ((ensure_packages_tags "r" false []
        ⟨⟨[], [⟨1, "r", "bar", "latest", none⟩], 0, 2⟩, []⟩).2.calls.filter
      isMutating) = [] := by decide

/-- C4 (code bug): starting from an empty remote and a declaration of one
package with 101 tag templates, the first real run creates the repository
and adds all 101 associations; the second run — reading the very remote
state the first run produced — still reports `changed = true` with a
non-empty change list (it re-reports `adding "t100"`), because the broken
pagination lets it see only the first 100 associations.  Idempotence
fails. -/
theorem c4_idempotence_code_bug :
    resultChanged (ensure_cdn_repo false
        [("name", .s "r"), ("release_type", .s "Primary"), ("content_type", .s "Docker"),
         ("arch", .s "multi"), ("use_for_tps", .b false), ("variants", .list ["V"])]
        [("pkg", (List.range 101).map (fun i => Tag.str ("t" ++ toString i)))]
        ⟨⟨[], [], 0, 0⟩, []⟩) = some true ∧
    resultChanged (ensure_cdn_repo false
        [("name", .s "r"), ("release_type", .s "Primary"), ("content_type", .s "Docker"),
         ("arch", .s "multi"), ("use_for_tps", .b false), ("variants", .list ["V"])]
        [("pkg", (List.range 101).map (fun i => Tag.str ("t" ++ toString i)))]
        (ensure_cdn_repo false
          [("name", .s "r"), ("release_type", .s "Primary"), ("content_type", .s "Docker"),
           ("arch", .s "multi"), ("use_for_tps", .b false), ("variants", .list ["V"])]
          [("pkg", (List.range 101).map (fun i => Tag.str ("t" ++ toString i)))]
          ⟨⟨[], [], 0, 0⟩, []⟩).2) = some true ∧
    resultStdout (ensure_cdn_repo false
        [("name", .s "r"), ("release_type", .s "Primary"), ("content_type", .s "Docker"),
         ("arch", .s "multi"), ("use_for_tps", .b false), ("variants", .list ["V"])]
        [("pkg", (List.range 101).map (fun i => Tag.str ("t" ++ toString i)))]
        (ensure_cdn_repo false
          [("name", .s "r"), ("release_type", .s "Primary"), ("content_type", .s "Docker"),
           ("arch", .s "multi"), ("use_for_tps", .b false), ("variants", .list ["V"])]
          [("pkg", (List.range 101).map (fun i => Tag.str ("t" ++ toString i)))]
          ⟨⟨[], [], 0, 0⟩, []⟩).2) =
      some ["adding \"t100\" tag template to \"pkg\""] := by decide

end CdnRepo
